import Mathlib

/-!
Verification of the finger-joint panel generator (fingerjoint.py).

The source program builds, for a rectangular panel, the ordered list of 2D
points tracing a finger-jointed outline, then normalises it into positive
coordinate space for SVG export.  Coordinates are modelled exactly over the
rationals.  The trigonometric entries of the rotation matrix are factored out
as explicit parameters c and s standing for cos(angle) and sin(angle); the
only angles the program uses are pi/2 (c, s) = (0, 1) and pi (c, s) = (-1, 0),
whose cosine and sine are exact rationals.
-/

namespace FingerJoint

/-- A 2D point with exact rational coordinates, modelling one row of the
numpy points array of fingerjoint.py. -/
abbrev Point : Type := ℚ × ℚ

/-- The parameters stored on the FingerJointMaker object in fingerjoint.py.
suppressed_fingers is the length-4 tuple indexed 0..3 in CSS order
(top, right, bottom, left). -/
structure FingerJointMaker where
  width : ℚ
  height : ℚ
  finger_width : ℚ
  suppressed_fingers : Fin 4 → ℤ
  kerf : ℚ
  finger_width_safety_margin : ℚ

/-- The SVG_MARGIN class constant of fingerjoint.py (padding around the
emitted points). -/
def SVG_MARGIN : ℚ := 10

/-- The finger count computed at the top of _make_edge:
int(math.floor(length / finger_width)) - suppressed_fingers, decremented by
one when even. -/
def num_fingers (M : FingerJointMaker) (length : ℚ) (suppressed : ℤ) : ℤ :=
  if (⌊length / M.finger_width⌋ - suppressed) % 2 = 0 then
    ⌊length / M.finger_width⌋ - suppressed - 1
  else
    ⌊length / M.finger_width⌋ - suppressed

/-- spare_change in _make_edge: length - num_fingers * finger_width. -/
def spare_change (M : FingerJointMaker) (length : ℚ) (suppressed : ℤ) : ℚ :=
  length - num_fingers M length suppressed * M.finger_width

/-- The initial value of current_x in _make_edge: (kerf + spare_change) / 2. -/
def edge_start_x (M : FingerJointMaker) (length : ℚ) (suppressed : ℤ) : ℚ :=
  (M.kerf + spare_change M length suppressed) / 2

/-- The loop bound in _make_edge: (length + kerf) - spare_change / 2; the
while loop runs as long as current_x is at most this value. -/
def edge_bound (M : FingerJointMaker) (length : ℚ) (suppressed : ℤ) : ℚ :=
  (length + M.kerf) - spare_change M length suppressed / 2

/-- The while loop of _make_edge.  Each iteration appends two points: on an
even step index i (a finger interval) the x offset is -1 * (kerf / 2) and the
pair rises from the baseline y = kerf / 2 to y + finger_width +
finger_width_safety_margin; on an odd step index (a non-finger interval) the
x offset is kerf / 2 and the pair returns to the baseline.  current_x then
advances by finger_width.  The fuel argument bounds the number of
iterations; the source loop has no such bound and the stabilisation theorem
below shows the result is fuel-independent once fuel reaches edgeFuel,
provided finger_width is positive (with a nonpositive finger_width the
source loop would not terminate). -/
def edgeLoop (M : FingerJointMaker) (bound : ℚ) : ℕ → ℚ → ℕ → List Point
  | 0, _, _ => []
  | fuel + 1, current_x, i =>
    if current_x ≤ bound then
      (if i % 2 = 0 then
        [(current_x - M.kerf / 2, M.kerf / 2),
         (current_x - M.kerf / 2,
           M.kerf / 2 + (M.finger_width + M.finger_width_safety_margin))]
      else
        [(current_x + M.kerf / 2,
           M.kerf / 2 + (M.finger_width + M.finger_width_safety_margin)),
         (current_x + M.kerf / 2, M.kerf / 2)]) ++
      edgeLoop M bound fuel (current_x + M.finger_width) (i + 1)
    else []

/-- A sufficient iteration budget for the while loop of _make_edge: one more
than the floor of (bound - start) / finger_width.  When finger_width is
positive this many steps always moves current_x strictly past the bound. -/
def edgeFuel (M : FingerJointMaker) (length : ℚ) (suppressed : ℤ) : ℕ :=
  (⌊(edge_bound M length suppressed - edge_start_x M length suppressed) /
      M.finger_width⌋).toNat + 1

/-- _make_edge of fingerjoint.py: the point (0, 0), then the points emitted
by the while loop, then the far endpoint (length + kerf, kerf / 2). -/
def make_edge (M : FingerJointMaker) (length : ℚ) (suppressed : ℤ) : List Point :=
  ((0, 0) : Point) ::
    (edgeLoop M (edge_bound M length suppressed) (edgeFuel M length suppressed)
        (edge_start_x M length suppressed) 0 ++
      [(length + M.kerf, M.kerf / 2)])

/-- translate of fingerjoint.py: add (x, y) to every point. -/
def translate (x y : ℚ) (pts : List Point) : List Point :=
  pts.map (fun p => (p.1 + x, p.2 + y))

/-- rotate of fingerjoint.py with the trigonometric values factored out:
the source builds the matrix [[cos a, sin a], [-sin a, cos a]] and applies it
to every point; here c stands for cos a and s for sin a, so each point
(x, y) is mapped to (c * x + s * y, -s * x + c * y) exactly as np.dot does. -/
def rotateCS (c s : ℚ) (pts : List Point) : List Point :=
  pts.map (fun p => (c * p.1 + s * p.2, -s * p.1 + c * p.2))

/-- Modelled from the words of the spec, for comparison with rotateCS: the
standard 2D counterclockwise rotation matrix [[cos a, -sin a], [sin a, cos a]]
applied to every point, again with c = cos a and s = sin a. -/
def rotate_ccw_spec (c s : ℚ) (pts : List Point) : List Point :=
  pts.map (fun p => (c * p.1 - s * p.2, s * p.1 + c * p.2))

/-- The rotation step make() performs after each edge: rotate(pi / 2), i.e.
rotateCS with c = cos(pi / 2) = 0 and s = sin(pi / 2) = 1. -/
def rot90 : List Point → List Point := rotateCS 0 1

/-- rotate(pi): rotateCS with c = cos pi = -1 and s = sin pi = 0. -/
def rotate_pi : List Point → List Point := rotateCS (-1) 0

/-- The per-edge data make() iterates over: edge lengths
(width, height, width, height) paired with suppressed_fingers[i]. -/
def edge_specs (M : FingerJointMaker) : List (ℚ × ℤ) :=
  [(M.width, M.suppressed_fingers 0), (M.height, M.suppressed_fingers 1),
   (M.width, M.suppressed_fingers 2), (M.height, M.suppressed_fingers 3)]

/-- One iteration of the loop in make(): append the new edge points to the
accumulated outline, translate the whole outline by (-1 * (edge_length +
kerf), 0), then rotate the whole outline by pi / 2. -/
def make_step (M : FingerJointMaker) (pts : List Point) (e : ℚ × ℤ) : List Point :=
  rot90 (translate (-1 * (e.1 + M.kerf)) 0 (pts ++ make_edge M e.1 e.2))

/-- make() of fingerjoint.py: fold make_step over the four edges, starting
from the empty outline (self.points is None before the first edge, so the
first iteration just copies the new points). -/
def make (M : FingerJointMaker) : List Point :=
  (edge_specs M).foldl (make_step M) []

/-- Left fold of min used to model the extent scan of center_points
(smallest[j] = min(p[j], smallest[j]) over all points, starting from
points[0]). -/
def foldMin (a : ℚ) (l : List ℚ) : ℚ :=
  l.foldl (fun acc v => min v acc) a

/-- Left fold of max used to model the extent scan of center_points. -/
def foldMax (a : ℚ) (l : List ℚ) : ℚ :=
  l.foldl (fun acc v => max v acc) a

/-- center_points of fingerjoint.py: scan the points for the componentwise
smallest and largest values (initialised from points[0] and folded over every
point), shift every point by -smallest + SVG_MARGIN, and record
(svg_width, svg_height) = largest - smallest + 2 * SVG_MARGIN.  The source
indexes points[0] and would raise on an empty outline; the empty case here
returns a junk value and every claim about center_points assumes a
non-empty outline. -/
def center_points (pts : List Point) : List Point × ℚ × ℚ :=
  match pts with
  | [] => ([], 0, 0)
  | p0 :: rest =>
      ((p0 :: rest).map (fun p =>
          (p.1 - foldMin p0.1 ((p0 :: rest).map Prod.fst) + SVG_MARGIN,
           p.2 - foldMin p0.2 ((p0 :: rest).map Prod.snd) + SVG_MARGIN)),
        foldMax p0.1 ((p0 :: rest).map Prod.fst) -
            foldMin p0.1 ((p0 :: rest).map Prod.fst) + 2 * SVG_MARGIN,
        foldMax p0.2 ((p0 :: rest).map Prod.snd) -
            foldMin p0.2 ((p0 :: rest).map Prod.snd) + 2 * SVG_MARGIN)

/-- The two Python exception kinds comma_separated_list_of_four_integers can
raise: the assert statement raises AssertionError when the split does not
have exactly four elements, and int() raises ValueError on a string that is
not an integer literal. -/
inductive PyError where
  | assertionError : PyError
  | valueError : PyError
deriving DecidableEq, Repr

/-- Python str.split(sep) on a character list: splitting on every occurrence
of sep and keeping empty fragments, so the result always has one more
element than the number of separators. -/
def pySplit (sep : Char) : List Char → List (List Char)
  | [] => [[]]
  | c :: rest =>
    if c = sep then [] :: pySplit sep rest
    else
      match pySplit sep rest with
      | [] => [[c]]
      | g :: gs => (c :: g) :: gs

/-- The characters Python str.strip removes: space, tab, newline, carriage
return, vertical tab and form feed. -/
def pyWhitespaceChar (c : Char) : Bool :=
  c = ' ' || c = '\t' || c = '\n' || c = '\r' ||
    c = Char.ofNat 11 || c = Char.ofNat 12

/-- Python str.strip: drop leading and trailing whitespace. -/
def pyStripChars (l : List Char) : List Char :=
  ((l.dropWhile pyWhitespaceChar).reverse.dropWhile pyWhitespaceChar).reverse

/-- The numeric value of a nonempty digit string. -/
def pyDigitsVal (l : List Char) : ℤ :=
  l.foldl (fun a c => a * 10 + ((c.toNat : ℤ) - 48)) 0

/-- Whether a whitespace-stripped string is a valid Python integer literal:
an optional sign followed by a nonempty run of decimal digits. -/
def pyIntWellFormedCore : List Char → Bool
  | [] => false
  | c :: rest =>
    if c = '-' then !rest.isEmpty && rest.all Char.isDigit
    else if c = '+' then !rest.isEmpty && rest.all Char.isDigit
    else (c :: rest).all Char.isDigit

/-- Python int() on a whitespace-stripped string: an optional sign followed
by a nonempty run of decimal digits, otherwise a ValueError.  int() itself
also tolerates surrounding whitespace, but the source always applies
str.strip first (map(int, map(str.strip, elements))), so stripping here
would be a no-op and is omitted. -/
def pyIntParse (l : List Char) : Except PyError ℤ :=
  match l with
  | [] => .error .valueError
  | c :: rest =>
    if c = '-' then
      if !rest.isEmpty && rest.all Char.isDigit then .ok (-(pyDigitsVal rest))
      else .error .valueError
    else if c = '+' then
      if !rest.isEmpty && rest.all Char.isDigit then .ok (pyDigitsVal rest)
      else .error .valueError
    else
      if (c :: rest).all Char.isDigit then .ok (pyDigitsVal (c :: rest))
      else .error .valueError

/-- Python 2 map(int, map(str.strip, elements)): eager left-to-right
conversion where the first exception aborts the whole call. -/
def mapPyInt : List (List Char) → Except PyError (List ℤ)
  | [] => .ok []
  | e :: rest =>
    match pyIntParse (pyStripChars e) with
    | .error err => .error err
    | .ok z =>
      match mapPyInt rest with
      | .error err => .error err
      | .ok zs => .ok (z :: zs)

/-- comma_separated_list_of_four_integers of fingerjoint.py: split the
argument string on commas, assert that there are exactly four elements
(AssertionError otherwise), then convert each element with int after
stripping whitespace (ValueError on a malformed element). -/
def comma_separated_list_of_four_integers (s : String) : Except PyError (List ℤ) :=
  if (pySplit ',' s.toList).length = 4 then mapPyInt (pySplit ',' s.toList)
  else .error .assertionError

/-- A command-line string that is exactly four comma-separated integers:
splitting on commas yields four fragments, each a valid integer literal
after stripping whitespace. -/
def four_comma_separated_integers (s : String) : Bool :=
  (pySplit ',' s.toList).length == 4 &&
    (pySplit ',' s.toList).all (fun e => pyIntWellFormedCore (pyStripChars e))

/-- The panel of the round-trip rotation test in test_fingerjoint.py:
width 5, height 10, finger_width 2, no suppressed fingers, no kerf, no
safety margin. -/
def exampleMaker : FingerJointMaker :=
  ⟨5, 10, 2, fun _ => 0, 0, 0⟩

/-- A degenerate configuration: finger_width 2 exceeds the edge length 1, so
the computed finger count is negative. -/
def degenerateMaker : FingerJointMaker :=
  ⟨1, 1, 2, fun _ => 0, 0, 0⟩

/-- C1 counterexample: at angle pi / 2, where cos = 0 and sin = 1, rotate
maps (1, 0) to (0, -1) while the standard counterclockwise rotation matrix
maps it to (0, 1); the rotation step rot90 used by make() agrees with
rotate, not with the spec matrix. -/
theorem rotate_matrix_counterexample :
    rotateCS 0 1 [((1 : ℚ), (0 : ℚ))] = [((0 : ℚ), (-1 : ℚ))] ∧
    rot90 [((1 : ℚ), (0 : ℚ))] = [((0 : ℚ), (-1 : ℚ))] ∧
    rotate_ccw_spec 0 1 [((1 : ℚ), (0 : ℚ))] = [((0 : ℚ), (1 : ℚ))] ∧
    rotateCS 0 1 [((1 : ℚ), (0 : ℚ))] ≠ rotate_ccw_spec 0 1 [((1 : ℚ), (0 : ℚ))] := by
  refine ⟨by norm_num [rotateCS], by norm_num [rot90, rotateCS],
    by norm_num [rotate_ccw_spec], by norm_num [rotateCS, rotate_ccw_spec]⟩

/-- C1 amended: rotate applies the transpose of the standard counterclockwise
rotation matrix, i.e. the clockwise rotation by the given angle: with
c = cos a and s = sin a, rotateCS c s equals the standard counterclockwise
rotation for the angle -a (whose cosine is c and sine is -s).  In particular
each rotation step of make() is a quarter turn clockwise, rotate_ccw_spec
with c = cos(-pi / 2) = 0 and s = sin(-pi / 2) = -1. -/
theorem rotate_is_clockwise (c s : ℚ) (pts : List Point) :
    rotateCS c s pts = rotate_ccw_spec c (-s) pts ∧
    rot90 pts = rotate_ccw_spec 0 (-1) pts := by
  constructor
  · unfold rotateCS rotate_ccw_spec
    congr 1
    funext p
    simp only [Prod.mk.injEq]
    constructor <;> ring_nf
  · unfold rot90 rotateCS rotate_ccw_spec
    congr 1
    funext p
    simp only [Prod.mk.injEq]
    constructor <;> ring_nf

/-- C3: make() processes exactly the four edges top, right, bottom, left
with lengths (width, height, width, height) and suppression counts
suppressed_fingers[0..3]; after appending each edge it first translates the
whole accumulated outline by (-1 * (edge_length + kerf), 0) and then rotates
the whole accumulated outline by a quarter turn, in that order. -/
theorem make_four_edges_order (M : FingerJointMaker) :
    make M =
      rot90 (translate (-1 * (M.height + M.kerf)) 0
        (rot90 (translate (-1 * (M.width + M.kerf)) 0
          (rot90 (translate (-1 * (M.height + M.kerf)) 0
            (rot90 (translate (-1 * (M.width + M.kerf)) 0
              ([] ++ make_edge M M.width (M.suppressed_fingers 0))) ++
              make_edge M M.height (M.suppressed_fingers 1))) ++
            make_edge M M.width (M.suppressed_fingers 2))) ++
          make_edge M M.height (M.suppressed_fingers 3))) := rfl

/-- C6: rotating by pi twice is the identity on the point list; rotate_pi is
rotateCS with c = cos pi = -1 and s = sin pi = 0, and in the exact rational
model the round trip is exact equality, not merely within tolerance. -/
theorem rotate_pi_twice_id (pts : List Point) :
    rotate_pi (rotate_pi pts) = pts := by
  unfold rotate_pi rotateCS
  rw [List.map_map]
  conv_rhs => rw [← List.map_id pts]
  congr 1
  funext p
  obtain ⟨x, y⟩ := p
  simp only [Function.comp_apply, id_eq, Prod.mk.injEq]
  constructor <;> ring

/-- Helper: the finger count of _make_edge is odd for every input, because
the parity branch decrements an even value. -/
theorem odd_num_fingers (M : FingerJointMaker) (length : ℚ) (suppressed : ℤ) :
    Odd (num_fingers M length suppressed) := by
  unfold num_fingers
  rw [Int.odd_iff]
  by_cases h : (⌊length / M.finger_width⌋ - suppressed) % 2 = 0
  · rw [if_pos h]; omega
  · rw [if_neg h]; omega

/-- Helper: once current_x is past the bound the loop emits nothing,
whatever fuel remains. -/
theorem edgeLoop_nil_of_lt (M : FingerJointMaker) (bound : ℚ) (fuel : ℕ) (x : ℚ) (i : ℕ)
    (h : bound < x) : edgeLoop M bound fuel x i = [] := by
  cases fuel with
  | zero => rfl
  | succ f => simp [edgeLoop, not_le.mpr h]

/-- Helper: the loop output is fuel-independent once the fuel covers the
number of steps needed to move current_x past the bound. -/
theorem edgeLoop_stable (M : FingerJointMaker) (bound : ℚ) :
    ∀ (n fuel : ℕ) (x : ℚ) (i : ℕ), n ≤ fuel →
      bound < x + n * M.finger_width →
      edgeLoop M bound fuel x i = edgeLoop M bound n x i := by
  intro n
  induction n with
  | zero =>
    intro fuel x i _ hb
    push_cast at hb
    rw [edgeLoop_nil_of_lt M bound fuel x i (by linarith)]
    rfl
  | succ n ih =>
    intro fuel x i hle hb
    match fuel, hle with
    | fuel + 1, hle =>
      by_cases hx : x ≤ bound
      · simp only [edgeLoop, if_pos hx]
        congr 1
        apply ih fuel (x + M.finger_width) (i + 1) (Nat.succ_le_succ_iff.mp hle)
        push_cast at hb ⊢
        linarith
      · rw [edgeLoop_nil_of_lt M bound _ x i (not_le.mp hx),
          edgeLoop_nil_of_lt M bound _ x i (not_le.mp hx)]

/-- Helper: edgeFuel steps always move current_x strictly past the bound
when finger_width is positive. -/
theorem edgeFuel_gt (M : FingerJointMaker) (length : ℚ) (suppressed : ℤ)
    (hfw : 0 < M.finger_width) :
    edge_bound M length suppressed <
      edge_start_x M length suppressed +
        (edgeFuel M length suppressed : ℚ) * M.finger_width := by
  have h1 : (edge_bound M length suppressed - edge_start_x M length suppressed) /
      M.finger_width <
      (⌊(edge_bound M length suppressed - edge_start_x M length suppressed) /
        M.finger_width⌋ : ℚ) + 1 := Int.lt_floor_add_one _
  have h2 : (⌊(edge_bound M length suppressed - edge_start_x M length suppressed) /
      M.finger_width⌋ : ℚ) ≤
      ((⌊(edge_bound M length suppressed - edge_start_x M length suppressed) /
        M.finger_width⌋.toNat : ℤ) : ℚ) := by
    exact_mod_cast Int.self_le_toNat _
  have h3 : (edgeFuel M length suppressed : ℚ) =
      ((⌊(edge_bound M length suppressed - edge_start_x M length suppressed) /
        M.finger_width⌋.toNat : ℕ) : ℚ) + 1 := by
    unfold edgeFuel
    push_cast
    ring
  have h4 : (edge_bound M length suppressed - edge_start_x M length suppressed) /
      M.finger_width < (edgeFuel M length suppressed : ℚ) := by
    rw [h3]
    push_cast at h2 ⊢
    linarith
  have h5 := (div_lt_iff₀ hfw).mp h4
  linarith

/-- Helper: the distance from the starting cursor to the loop bound is
num_fingers * finger_width + kerf / 2. -/
theorem edge_bound_sub_start (M : FingerJointMaker) (length : ℚ) (suppressed : ℤ) :
    edge_bound M length suppressed - edge_start_x M length suppressed =
      num_fingers M length suppressed * M.finger_width + M.kerf / 2 := by
  unfold edge_bound edge_start_x spare_change
  ring

/-- Helper: exact output size of the loop: with n iterations reachable under
the bound and the fuel at least n, the loop emits exactly 2 * n points. -/
theorem edgeLoop_length (M : FingerJointMaker) (bound : ℚ) :
    ∀ (n fuel : ℕ) (x : ℚ) (i : ℕ), n ≤ fuel →
      (∀ k : ℕ, k < n → x + k * M.finger_width ≤ bound) →
      bound < x + n * M.finger_width →
      (edgeLoop M bound fuel x i).length = 2 * n := by
  intro n
  induction n with
  | zero =>
    intro fuel x i _ _ hb
    push_cast at hb
    rw [edgeLoop_nil_of_lt M bound fuel x i (by linarith)]
    rfl
  | succ n ih =>
    intro fuel x i hle hall hb
    match fuel, hle with
    | fuel + 1, hle =>
      have hx : x ≤ bound := by
        have h0 := hall 0 (Nat.succ_pos n)
        push_cast at h0
        linarith
      have hrec : (edgeLoop M bound fuel (x + M.finger_width) (i + 1)).length = 2 * n := by
        apply ih fuel (x + M.finger_width) (i + 1) (Nat.succ_le_succ_iff.mp hle)
        · intro k hk
          have hk1 := hall (k + 1) (Nat.succ_lt_succ hk)
          push_cast at hk1 ⊢
          linarith
        · push_cast at hb ⊢
          linarith
      simp only [edgeLoop, if_pos hx, List.length_append, hrec]
      by_cases hi : i % 2 = 0
      · simp only [if_pos hi, List.length_cons, List.length_nil]
        omega
      · simp only [if_neg hi, List.length_cons, List.length_nil]
        omega

/-- C10: with positive finger_width the stepping loop of _make_edge performs
a bounded number of iterations: any fuel of at least
edgeFuel = floor((bound - start) / finger_width) + 1 steps produces the same
output as make_edge, so the while loop terminates within that explicit
length / finger_width order bound, and make() terminates on every such
input. -/
theorem make_edge_loop_bounded (M : FingerJointMaker) (length : ℚ) (suppressed : ℤ)
    (hfw : 0 < M.finger_width) (fuel : ℕ)
    (hfuel : edgeFuel M length suppressed ≤ fuel) :
    ((0, 0) : Point) ::
        (edgeLoop M (edge_bound M length suppressed) fuel
            (edge_start_x M length suppressed) 0 ++
          [(length + M.kerf, M.kerf / 2)]) = make_edge M length suppressed := by
  unfold make_edge
  rw [edgeLoop_stable M (edge_bound M length suppressed)
    (edgeFuel M length suppressed) fuel (edge_start_x M length suppressed) 0 hfuel
    (edgeFuel_gt M length suppressed hfw)]

/-- Witness for C10 at the test panel: width 5, finger_width 2, where
edgeFuel is 2 and any larger fuel gives the same edge. -/
theorem make_edge_loop_bounded_witness :
    ((0 : ℚ) < exampleMaker.finger_width ∧ edgeFuel exampleMaker 5 0 ≤ 10) ∧
    ((0, 0) : Point) ::
        (edgeLoop exampleMaker (edge_bound exampleMaker 5 0) 10
            (edge_start_x exampleMaker 5 0) 0 ++
          [((5 : ℚ) + exampleMaker.kerf, exampleMaker.kerf / 2)]) =
      make_edge exampleMaker 5 0 :=
  ⟨⟨by norm_num [exampleMaker],
    by norm_num [edgeFuel, edge_bound, edge_start_x, spare_change, num_fingers,
      exampleMaker]⟩,
    make_edge_loop_bounded exampleMaker 5 0 (by norm_num [exampleMaker]) 10
      (by norm_num [edgeFuel, edge_bound, edge_start_x, spare_change, num_fingers,
        exampleMaker])⟩

/-- C2: the finger count of _make_edge is odd for every input; under the
normal geometry assumptions (positive finger_width, kerf nonnegative and
smaller than two finger widths, at least one finger) the emitted edge
consists of exactly num_fingers + 1 rise/fall transitions (2 points each)
plus the two endpoint anchors, so the crenellation spans exactly the odd
number num_fingers of finger-width intervals; at the spec example
length 5, finger_width 2, suppressed 0 the count floor(5 / 2) = 2 is forced
to 1. -/
theorem num_fingers_parity (M : FingerJointMaker) (length : ℚ) (suppressed : ℤ)
    (hfw : 0 < M.finger_width) (hk0 : 0 ≤ M.kerf)
    (hk2 : M.kerf < 2 * M.finger_width)
    (hnf : 1 ≤ num_fingers M length suppressed) :
    (∀ (M₀ : FingerJointMaker) (l₀ : ℚ) (s₀ : ℤ), Odd (num_fingers M₀ l₀ s₀)) ∧
    (make_edge M length suppressed).length =
      2 * ((num_fingers M length suppressed).toNat + 1) + 2 ∧
    num_fingers exampleMaker 5 0 = 1 := by
  refine ⟨odd_num_fingers, ?_, by norm_num [num_fingers, exampleMaker]⟩
  have hbs := edge_bound_sub_start M length suppressed
  have hnf0 : (0 : ℤ) ≤ num_fingers M length suppressed := by omega
  have hcast : ((num_fingers M length suppressed).toNat : ℚ) =
      ((num_fingers M length suppressed : ℤ) : ℚ) := by
    exact_mod_cast congrArg (fun z : ℤ => (z : ℚ)) (Int.toNat_of_nonneg hnf0)
  have hge : num_fingers M length suppressed ≤
      ⌊(edge_bound M length suppressed - edge_start_x M length suppressed) /
        M.finger_width⌋ := by
    rw [Int.le_floor, le_div_iff₀ hfw, hbs]
    linarith
  have hfuel : (num_fingers M length suppressed).toNat + 1 ≤
      edgeFuel M length suppressed :=
    Nat.succ_le_succ (Int.toNat_le_toNat hge)
  have hlen := edgeLoop_length M (edge_bound M length suppressed)
    ((num_fingers M length suppressed).toNat + 1) (edgeFuel M length suppressed)
    (edge_start_x M length suppressed) 0 hfuel ?_ ?_
  · unfold make_edge
    rw [List.length_cons, List.length_append, hlen]
    simp only [List.length_cons, List.length_nil]
  · intro k hk
    have hkq : (k : ℚ) ≤ ((num_fingers M length suppressed : ℤ) : ℚ) := by
      rw [← hcast]
      exact_mod_cast Nat.lt_succ_iff.mp hk
    have hmul : (k : ℚ) * M.finger_width ≤
        ((num_fingers M length suppressed : ℤ) : ℚ) * M.finger_width :=
      mul_le_mul_of_nonneg_right hkq hfw.le
    linarith
  · push_cast
    rw [hcast]
    linarith

/-- Witness for C2 at the spec example: length 5, finger_width 2,
suppressed 0, no kerf, where num_fingers is 1 and the edge has
2 * (1 + 1) + 2 = 6 points. -/
theorem num_fingers_parity_witness :
    ((0 : ℚ) < exampleMaker.finger_width ∧ (0 : ℚ) ≤ exampleMaker.kerf ∧
      exampleMaker.kerf < 2 * exampleMaker.finger_width ∧
      1 ≤ num_fingers exampleMaker 5 0) ∧
    ((∀ (M₀ : FingerJointMaker) (l₀ : ℚ) (s₀ : ℤ), Odd (num_fingers M₀ l₀ s₀)) ∧
      (make_edge exampleMaker 5 0).length =
        2 * ((num_fingers exampleMaker 5 0).toNat + 1) + 2 ∧
      num_fingers exampleMaker 5 0 = 1) :=
  ⟨⟨by norm_num [exampleMaker], by norm_num [exampleMaker],
    by norm_num [exampleMaker], by norm_num [num_fingers, exampleMaker]⟩,
    num_fingers_parity exampleMaker 5 0 (by norm_num [exampleMaker])
      (by norm_num [exampleMaker]) (by norm_num [exampleMaker])
      (by norm_num [num_fingers, exampleMaker])⟩

/-- C7: whenever the stepping loop runs at all (the starting cursor is
within the bound), the edge built by _make_edge begins with (0, 0), its
second point is the first notch transition, emitted at the starting cursor
(kerf + spare_change) / 2 with the finger x offset -1 * (kerf / 2) on the
baseline y = kerf / 2, and its last point is the far endpoint
(length + kerf, kerf / 2).  The first and last points do not depend on the
hypothesis. -/
theorem make_edge_anchor_points (M : FingerJointMaker) (length : ℚ) (suppressed : ℤ)
    (hrun : edge_start_x M length suppressed ≤ edge_bound M length suppressed) :
    (make_edge M length suppressed).head? = some (0, 0) ∧
    (make_edge M length suppressed).getLast? = some (length + M.kerf, M.kerf / 2) ∧
    (make_edge M length suppressed)[1]? =
      some (edge_start_x M length suppressed - M.kerf / 2, M.kerf / 2) := by
  refine ⟨rfl, ?_, ?_⟩
  · unfold make_edge
    rw [show ((0, 0) : Point) ::
        (edgeLoop M (edge_bound M length suppressed) (edgeFuel M length suppressed)
            (edge_start_x M length suppressed) 0 ++
          [(length + M.kerf, M.kerf / 2)]) =
        (((0, 0) : Point) :: edgeLoop M (edge_bound M length suppressed)
            (edgeFuel M length suppressed) (edge_start_x M length suppressed) 0) ++
          [(length + M.kerf, M.kerf / 2)] from rfl]
    exact List.getLast?_concat _
  · unfold make_edge edgeFuel
    simp only [edgeLoop, if_pos hrun, Nat.zero_mod, if_true, List.cons_append,
      List.getElem?_cons_succ, List.getElem?_cons_zero]

/-- Witness for C7 at the spec example panel, where the cursor starts at
3 / 2 and the bound is 7 / 2. -/
theorem make_edge_anchor_points_witness :
    edge_start_x exampleMaker 5 0 ≤ edge_bound exampleMaker 5 0 ∧
    ((make_edge exampleMaker 5 0).head? = some (0, 0) ∧
      (make_edge exampleMaker 5 0).getLast? =
        some ((5 : ℚ) + exampleMaker.kerf, exampleMaker.kerf / 2) ∧
      (make_edge exampleMaker 5 0)[1]? =
        some (edge_start_x exampleMaker 5 0 - exampleMaker.kerf / 2,
          exampleMaker.kerf / 2)) :=
  ⟨by norm_num [edge_start_x, edge_bound, spare_change, num_fingers, exampleMaker],
    make_edge_anchor_points exampleMaker 5 0
      (by norm_num [edge_start_x, edge_bound, spare_change, num_fingers, exampleMaker])⟩

/-- C8 counterexample: with finger_width 2 on edges of length 1 neither
_make_edge nor make() signals any error; _make_edge silently returns the
degenerate two-point edge and make() silently returns a degenerate plain
rectangle outline with no fingers at all (in the embedding both functions
are total and have no failure channel, exactly as the source raises no
exception on this input). -/
theorem make_edge_degenerate_counterexample :
    make_edge degenerateMaker 1 0 = [((0 : ℚ), (0 : ℚ)), ((1 : ℚ), (0 : ℚ))] ∧
    make degenerateMaker =
      [((0 : ℚ), (0 : ℚ)), ((1 : ℚ), (0 : ℚ)), ((1 : ℚ), (0 : ℚ)), ((1 : ℚ), (1 : ℚ)),
       ((1 : ℚ), (1 : ℚ)), ((0 : ℚ), (1 : ℚ)), ((0 : ℚ), (1 : ℚ)),
       ((0 : ℚ), (0 : ℚ))] := by
  constructor
  · norm_num [make_edge, degenerateMaker, edgeLoop, edgeFuel, edge_bound, edge_start_x,
      spare_change, num_fingers]
  · norm_num [make, make_step, edge_specs, degenerateMaker, make_edge, edgeLoop,
      edgeFuel, edge_bound, edge_start_x, spare_change, num_fingers, rot90, rotateCS,
      translate]

/-- C8 amended: _make_edge and make() perform no validation.  Whenever the
computed finger count is zero or negative (as happens when finger_width
exceeds the edge length) and the kerf is smaller than two finger widths, the
loop never runs and _make_edge silently returns the degenerate edge
consisting of just the two endpoints (0, 0) and (length + kerf, kerf / 2). -/
theorem make_edge_degenerate_silent (M : FingerJointMaker) (length : ℚ) (suppressed : ℤ)
    (hfw : 0 < M.finger_width) (hk2 : M.kerf < 2 * M.finger_width)
    (hnf : num_fingers M length suppressed ≤ 0) :
    make_edge M length suppressed =
      [((0 : ℚ), (0 : ℚ)), (length + M.kerf, M.kerf / 2)] := by
  have hodd := odd_num_fingers M length suppressed
  have h1 : num_fingers M length suppressed ≤ -1 := by
    obtain ⟨k, hk⟩ := hodd
    omega
  have hcast : ((num_fingers M length suppressed : ℤ) : ℚ) ≤ -1 := by exact_mod_cast h1
  have hbs := edge_bound_sub_start M length suppressed
  have hmul : ((num_fingers M length suppressed : ℤ) : ℚ) * M.finger_width ≤
      -1 * M.finger_width :=
    mul_le_mul_of_nonneg_right hcast hfw.le
  have hlt : edge_bound M length suppressed < edge_start_x M length suppressed := by
    linarith
  unfold make_edge
  rw [edgeLoop_nil_of_lt M _ _ _ _ hlt]
  rfl

/-- Witness for C8 amended at the degenerate panel: finger_width 2 on an
edge of length 1 gives finger count -1 and the bare two-point edge. -/
theorem make_edge_degenerate_silent_witness :
    ((0 : ℚ) < degenerateMaker.finger_width ∧
      degenerateMaker.kerf < 2 * degenerateMaker.finger_width ∧
      num_fingers degenerateMaker 1 0 ≤ 0) ∧
    make_edge degenerateMaker 1 0 =
      [((0 : ℚ), (0 : ℚ)), ((1 : ℚ) + degenerateMaker.kerf, degenerateMaker.kerf / 2)] :=
  ⟨⟨by norm_num [degenerateMaker], by norm_num [degenerateMaker],
    by norm_num [num_fingers, degenerateMaker]⟩,
    make_edge_degenerate_silent degenerateMaker 1 0 (by norm_num [degenerateMaker])
      (by norm_num [degenerateMaker]) (by norm_num [num_fingers, degenerateMaker])⟩

/-- Helper: min distributes over the affine shift used by center_points. -/
theorem min_shift (a b c d : ℚ) : min (a - c + d) (b - c + d) = min a b - c + d := by
  rcases le_total a b with h | h
  · rw [min_eq_left h, min_eq_left (by linarith)]
  · rw [min_eq_right h, min_eq_right (by linarith)]

/-- Helper: max distributes over the affine shift used by center_points. -/
theorem max_shift (a b c d : ℚ) : max (a - c + d) (b - c + d) = max a b - c + d := by
  rcases le_total a b with h | h
  · rw [max_eq_right h, max_eq_right (by linarith)]
  · rw [max_eq_left h, max_eq_left (by linarith)]

/-- Helper: the running minimum never exceeds its initial value. -/
theorem foldMin_le_init (l : List ℚ) : ∀ a : ℚ, foldMin a l ≤ a := by
  induction l with
  | nil => intro a; exact le_refl a
  | cons v t ih =>
    intro a
    have h := ih (min v a)
    calc foldMin a (v :: t) = foldMin (min v a) t := rfl
      _ ≤ min v a := h
      _ ≤ a := min_le_right v a

/-- Helper: the running minimum is a lower bound of the list. -/
theorem foldMin_le_mem (l : List ℚ) : ∀ (a x : ℚ), x ∈ l → foldMin a l ≤ x := by
  induction l with
  | nil => intro a x hx; cases hx
  | cons v t ih =>
    intro a x hx
    rcases List.mem_cons.mp hx with rfl | hx
    · calc foldMin a (x :: t) = foldMin (min x a) t := rfl
        _ ≤ min x a := foldMin_le_init t (min x a)
        _ ≤ x := min_le_left x a
    · exact ih (min v a) x hx

/-- Helper: the running minimum is the initial value or an element. -/
theorem foldMin_eq_init_or_mem (l : List ℚ) :
    ∀ a : ℚ, foldMin a l = a ∨ foldMin a l ∈ l := by
  induction l with
  | nil => intro a; exact Or.inl rfl
  | cons v t ih =>
    intro a
    rcases ih (min v a) with h | h
    · rcases min_choice v a with hva | hva
      · right
        rw [show foldMin a (v :: t) = foldMin (min v a) t from rfl, h, hva]
        exact List.mem_cons_self v t
      · left
        rw [show foldMin a (v :: t) = foldMin (min v a) t from rfl, h, hva]
    · right
      exact List.mem_cons_of_mem v h

/-- Helper: folding min over a shifted list shifts the fold. -/
theorem foldMin_map_shift (l : List ℚ) :
    ∀ a c d : ℚ,
      foldMin (a - c + d) (l.map (fun x => x - c + d)) = foldMin a l - c + d := by
  induction l with
  | nil => intro a c d; rfl
  | cons v t ih =>
    intro a c d
    calc foldMin (a - c + d) ((v :: t).map (fun x => x - c + d)) =
        foldMin (min (v - c + d) (a - c + d)) (t.map (fun x => x - c + d)) := rfl
      _ = foldMin (min v a - c + d) (t.map (fun x => x - c + d)) := by rw [min_shift]
      _ = foldMin (min v a) t - c + d := ih (min v a) c d
      _ = foldMin a (v :: t) - c + d := rfl

/-- Helper: the running maximum never drops below its initial value. -/
theorem foldMax_init_le (l : List ℚ) : ∀ a : ℚ, a ≤ foldMax a l := by
  induction l with
  | nil => intro a; exact le_refl a
  | cons v t ih =>
    intro a
    have h := ih (max v a)
    calc a ≤ max v a := le_max_right v a
      _ ≤ foldMax (max v a) t := h
      _ = foldMax a (v :: t) := rfl

/-- Helper: the running maximum is an upper bound of the list. -/
theorem foldMax_mem_le (l : List ℚ) : ∀ (a x : ℚ), x ∈ l → x ≤ foldMax a l := by
  induction l with
  | nil => intro a x hx; cases hx
  | cons v t ih =>
    intro a x hx
    rcases List.mem_cons.mp hx with rfl | hx
    · calc x ≤ max x a := le_max_left x a
        _ ≤ foldMax (max x a) t := foldMax_init_le t (max x a)
        _ = foldMax a (x :: t) := rfl
    · exact ih (max v a) x hx

/-- Helper: the running maximum is the initial value or an element. -/
theorem foldMax_eq_init_or_mem (l : List ℚ) :
    ∀ a : ℚ, foldMax a l = a ∨ foldMax a l ∈ l := by
  induction l with
  | nil => intro a; exact Or.inl rfl
  | cons v t ih =>
    intro a
    rcases ih (max v a) with h | h
    · rcases max_choice v a with hva | hva
      · right
        rw [show foldMax a (v :: t) = foldMax (max v a) t from rfl, h, hva]
        exact List.mem_cons_self v t
      · left
        rw [show foldMax a (v :: t) = foldMax (max v a) t from rfl, h, hva]
    · right
      exact List.mem_cons_of_mem v h

/-- Helper: folding max over a shifted list shifts the fold. -/
theorem foldMax_map_shift (l : List ℚ) :
    ∀ a c d : ℚ,
      foldMax (a - c + d) (l.map (fun x => x - c + d)) = foldMax a l - c + d := by
  induction l with
  | nil => intro a c d; rfl
  | cons v t ih =>
    intro a c d
    calc foldMax (a - c + d) ((v :: t).map (fun x => x - c + d)) =
        foldMax (max (v - c + d) (a - c + d)) (t.map (fun x => x - c + d)) := rfl
      _ = foldMax (max v a - c + d) (t.map (fun x => x - c + d)) := by rw [max_shift]
      _ = foldMax (max v a) t - c + d := ih (max v a) c d
      _ = foldMax a (v :: t) - c + d := rfl

/-- C4: after center_points, the minimum x and minimum y over all points
equal SVG_MARGIN exactly (every coordinate is at least the margin and it is
attained), and the recorded svg_width and svg_height equal the bounding-box
span of the original outline plus twice the margin. -/
theorem center_points_margin (pts : List Point) (hne : pts ≠ []) :
    (∀ q ∈ (center_points pts).1, SVG_MARGIN ≤ q.1 ∧ SVG_MARGIN ≤ q.2) ∧
    (∃ q ∈ (center_points pts).1, q.1 = SVG_MARGIN) ∧
    (∃ q ∈ (center_points pts).1, q.2 = SVG_MARGIN) ∧
    (∃ lo hi, (∀ p ∈ pts, lo ≤ p.1 ∧ p.1 ≤ hi) ∧ (∃ p ∈ pts, p.1 = lo) ∧
      (∃ p ∈ pts, p.1 = hi) ∧
      (center_points pts).2.1 = hi - lo + 2 * SVG_MARGIN) ∧
    (∃ lo hi, (∀ p ∈ pts, lo ≤ p.2 ∧ p.2 ≤ hi) ∧ (∃ p ∈ pts, p.2 = lo) ∧
      (∃ p ∈ pts, p.2 = hi) ∧
      (center_points pts).2.2 = hi - lo + 2 * SVG_MARGIN) := by
  match pts, hne with
  | p0 :: rest, _ =>
    have hsx_le : ∀ p ∈ p0 :: rest,
        foldMin p0.1 ((p0 :: rest).map Prod.fst) ≤ p.1 := fun p hp =>
      foldMin_le_mem _ _ _ (List.mem_map_of_mem Prod.fst hp)
    have hsy_le : ∀ p ∈ p0 :: rest,
        foldMin p0.2 ((p0 :: rest).map Prod.snd) ≤ p.2 := fun p hp =>
      foldMin_le_mem _ _ _ (List.mem_map_of_mem Prod.snd hp)
    have hlx_ge : ∀ p ∈ p0 :: rest,
        p.1 ≤ foldMax p0.1 ((p0 :: rest).map Prod.fst) := fun p hp =>
      foldMax_mem_le _ _ _ (List.mem_map_of_mem Prod.fst hp)
    have hly_ge : ∀ p ∈ p0 :: rest,
        p.2 ≤ foldMax p0.2 ((p0 :: rest).map Prod.snd) := fun p hp =>
      foldMax_mem_le _ _ _ (List.mem_map_of_mem Prod.snd hp)
    have hsx_mem : ∃ p ∈ p0 :: rest,
        p.1 = foldMin p0.1 ((p0 :: rest).map Prod.fst) := by
      rcases foldMin_eq_init_or_mem ((p0 :: rest).map Prod.fst) p0.1 with h | h
      · exact ⟨p0, List.mem_cons_self p0 rest, h.symm⟩
      · obtain ⟨p, hp, hpe⟩ := List.mem_map.mp h
        exact ⟨p, hp, hpe⟩
    have hsy_mem : ∃ p ∈ p0 :: rest,
        p.2 = foldMin p0.2 ((p0 :: rest).map Prod.snd) := by
      rcases foldMin_eq_init_or_mem ((p0 :: rest).map Prod.snd) p0.2 with h | h
      · exact ⟨p0, List.mem_cons_self p0 rest, h.symm⟩
      · obtain ⟨p, hp, hpe⟩ := List.mem_map.mp h
        exact ⟨p, hp, hpe⟩
    have hlx_mem : ∃ p ∈ p0 :: rest,
        p.1 = foldMax p0.1 ((p0 :: rest).map Prod.fst) := by
      rcases foldMax_eq_init_or_mem ((p0 :: rest).map Prod.fst) p0.1 with h | h
      · exact ⟨p0, List.mem_cons_self p0 rest, h.symm⟩
      · obtain ⟨p, hp, hpe⟩ := List.mem_map.mp h
        exact ⟨p, hp, hpe⟩
    have hly_mem : ∃ p ∈ p0 :: rest,
        p.2 = foldMax p0.2 ((p0 :: rest).map Prod.snd) := by
      rcases foldMax_eq_init_or_mem ((p0 :: rest).map Prod.snd) p0.2 with h | h
      · exact ⟨p0, List.mem_cons_self p0 rest, h.symm⟩
      · obtain ⟨p, hp, hpe⟩ := List.mem_map.mp h
        exact ⟨p, hp, hpe⟩
    refine ⟨?_, ?_, ?_, ?_, ?_⟩
    · intro q hq
      simp only [center_points] at hq
      obtain ⟨p, hp, rfl⟩ := List.mem_map.mp hq
      exact ⟨by have := hsx_le p hp; simp only []; linarith,
        by have := hsy_le p hp; simp only []; linarith⟩
    · obtain ⟨p, hp, hpe⟩ := hsx_mem
      refine ⟨(p.1 - foldMin p0.1 ((p0 :: rest).map Prod.fst) + SVG_MARGIN,
        p.2 - foldMin p0.2 ((p0 :: rest).map Prod.snd) + SVG_MARGIN), ?_, ?_⟩
      · simp only [center_points]
        exact List.mem_map_of_mem _ hp
      · show p.1 - foldMin p0.1 ((p0 :: rest).map Prod.fst) + SVG_MARGIN = SVG_MARGIN
        rw [hpe]
        ring
    · obtain ⟨p, hp, hpe⟩ := hsy_mem
      refine ⟨(p.1 - foldMin p0.1 ((p0 :: rest).map Prod.fst) + SVG_MARGIN,
        p.2 - foldMin p0.2 ((p0 :: rest).map Prod.snd) + SVG_MARGIN), ?_, ?_⟩
      · simp only [center_points]
        exact List.mem_map_of_mem _ hp
      · show p.2 - foldMin p0.2 ((p0 :: rest).map Prod.snd) + SVG_MARGIN = SVG_MARGIN
        rw [hpe]
        ring
    · refine ⟨foldMin p0.1 ((p0 :: rest).map Prod.fst),
        foldMax p0.1 ((p0 :: rest).map Prod.fst),
        fun p hp => ⟨hsx_le p hp, hlx_ge p hp⟩, ?_, ?_, ?_⟩
      · obtain ⟨p, hp, hpe⟩ := hsx_mem
        exact ⟨p, hp, hpe⟩
      · obtain ⟨p, hp, hpe⟩ := hlx_mem
        exact ⟨p, hp, hpe⟩
      · simp only [center_points]
    · refine ⟨foldMin p0.2 ((p0 :: rest).map Prod.snd),
        foldMax p0.2 ((p0 :: rest).map Prod.snd),
        fun p hp => ⟨hsy_le p hp, hly_ge p hp⟩, ?_, ?_, ?_⟩
      · obtain ⟨p, hp, hpe⟩ := hsy_mem
        exact ⟨p, hp, hpe⟩
      · obtain ⟨p, hp, hpe⟩ := hly_mem
        exact ⟨p, hp, hpe⟩
      · simp only [center_points]

/-- Witness for C4 on the outline [(0, 0), (3, 4)], whose centred form is
[(10, 10), (13, 14)] with svg dimensions 23 and 24. -/
theorem center_points_margin_witness :
    ([((0 : ℚ), (0 : ℚ)), ((3 : ℚ), (4 : ℚ))] : List Point) ≠ [] ∧
    ((∀ q ∈ (center_points [((0 : ℚ), (0 : ℚ)), ((3 : ℚ), (4 : ℚ))]).1,
        SVG_MARGIN ≤ q.1 ∧ SVG_MARGIN ≤ q.2) ∧
      (∃ q ∈ (center_points [((0 : ℚ), (0 : ℚ)), ((3 : ℚ), (4 : ℚ))]).1,
        q.1 = SVG_MARGIN) ∧
      (∃ q ∈ (center_points [((0 : ℚ), (0 : ℚ)), ((3 : ℚ), (4 : ℚ))]).1,
        q.2 = SVG_MARGIN) ∧
      (∃ lo hi, (∀ p ∈ ([((0 : ℚ), (0 : ℚ)), ((3 : ℚ), (4 : ℚ))] : List Point),
          lo ≤ p.1 ∧ p.1 ≤ hi) ∧
        (∃ p ∈ ([((0 : ℚ), (0 : ℚ)), ((3 : ℚ), (4 : ℚ))] : List Point), p.1 = lo) ∧
        (∃ p ∈ ([((0 : ℚ), (0 : ℚ)), ((3 : ℚ), (4 : ℚ))] : List Point), p.1 = hi) ∧
        (center_points [((0 : ℚ), (0 : ℚ)), ((3 : ℚ), (4 : ℚ))]).2.1 =
          hi - lo + 2 * SVG_MARGIN) ∧
      (∃ lo hi, (∀ p ∈ ([((0 : ℚ), (0 : ℚ)), ((3 : ℚ), (4 : ℚ))] : List Point),
          lo ≤ p.2 ∧ p.2 ≤ hi) ∧
        (∃ p ∈ ([((0 : ℚ), (0 : ℚ)), ((3 : ℚ), (4 : ℚ))] : List Point), p.2 = lo) ∧
        (∃ p ∈ ([((0 : ℚ), (0 : ℚ)), ((3 : ℚ), (4 : ℚ))] : List Point), p.2 = hi) ∧
        (center_points [((0 : ℚ), (0 : ℚ)), ((3 : ℚ), (4 : ℚ))]).2.2 =
          hi - lo + 2 * SVG_MARGIN)) :=
  ⟨List.cons_ne_nil _ _,
    center_points_margin [((0 : ℚ), (0 : ℚ)), ((3 : ℚ), (4 : ℚ))]
      (List.cons_ne_nil _ _)⟩

/-- C5: center_points is idempotent on non-empty outlines: because the
bounding box is re-derived from the current points on each call, a second
call leaves the point list and the recorded svg dimensions unchanged. -/
theorem center_points_idem (pts : List Point) (hne : pts ≠ []) :
    center_points ((center_points pts).1) = center_points pts := by
  match pts, hne with
  | p0 :: rest, _ =>
    have hfst : List.map (Prod.fst ∘ fun p : Point =>
        (p.1 - foldMin p0.1 (p0.1 :: List.map Prod.fst rest) + SVG_MARGIN,
         p.2 - foldMin p0.2 (p0.2 :: List.map Prod.snd rest) + SVG_MARGIN)) rest =
        List.map (fun x => x - foldMin p0.1 (p0.1 :: List.map Prod.fst rest) + SVG_MARGIN)
          (List.map Prod.fst rest) := by
      rw [List.map_map]
      rfl
    have hsnd : List.map (Prod.snd ∘ fun p : Point =>
        (p.1 - foldMin p0.1 (p0.1 :: List.map Prod.fst rest) + SVG_MARGIN,
         p.2 - foldMin p0.2 (p0.2 :: List.map Prod.snd rest) + SVG_MARGIN)) rest =
        List.map (fun x => x - foldMin p0.2 (p0.2 :: List.map Prod.snd rest) + SVG_MARGIN)
          (List.map Prod.snd rest) := by
      rw [List.map_map]
      rfl
    have hminx : foldMin
        (p0.1 - foldMin p0.1 (p0.1 :: List.map Prod.fst rest) + SVG_MARGIN)
        ((p0.1 - foldMin p0.1 (p0.1 :: List.map Prod.fst rest) + SVG_MARGIN) ::
          List.map (Prod.fst ∘ fun p : Point =>
            (p.1 - foldMin p0.1 (p0.1 :: List.map Prod.fst rest) + SVG_MARGIN,
             p.2 - foldMin p0.2 (p0.2 :: List.map Prod.snd rest) + SVG_MARGIN)) rest) =
        SVG_MARGIN := by
      rw [hfst,
        show (p0.1 - foldMin p0.1 (p0.1 :: List.map Prod.fst rest) + SVG_MARGIN) ::
          List.map (fun x =>
            x - foldMin p0.1 (p0.1 :: List.map Prod.fst rest) + SVG_MARGIN)
            (List.map Prod.fst rest) =
          List.map (fun x =>
            x - foldMin p0.1 (p0.1 :: List.map Prod.fst rest) + SVG_MARGIN)
            (p0.1 :: List.map Prod.fst rest) from rfl,
        foldMin_map_shift]
      ring
    have hminy : foldMin
        (p0.2 - foldMin p0.2 (p0.2 :: List.map Prod.snd rest) + SVG_MARGIN)
        ((p0.2 - foldMin p0.2 (p0.2 :: List.map Prod.snd rest) + SVG_MARGIN) ::
          List.map (Prod.snd ∘ fun p : Point =>
            (p.1 - foldMin p0.1 (p0.1 :: List.map Prod.fst rest) + SVG_MARGIN,
             p.2 - foldMin p0.2 (p0.2 :: List.map Prod.snd rest) + SVG_MARGIN)) rest) =
        SVG_MARGIN := by
      rw [hsnd,
        show (p0.2 - foldMin p0.2 (p0.2 :: List.map Prod.snd rest) + SVG_MARGIN) ::
          List.map (fun x =>
            x - foldMin p0.2 (p0.2 :: List.map Prod.snd rest) + SVG_MARGIN)
            (List.map Prod.snd rest) =
          List.map (fun x =>
            x - foldMin p0.2 (p0.2 :: List.map Prod.snd rest) + SVG_MARGIN)
            (p0.2 :: List.map Prod.snd rest) from rfl,
        foldMin_map_shift]
      ring
    have hmaxx : foldMax
        (p0.1 - foldMin p0.1 (p0.1 :: List.map Prod.fst rest) + SVG_MARGIN)
        ((p0.1 - foldMin p0.1 (p0.1 :: List.map Prod.fst rest) + SVG_MARGIN) ::
          List.map (Prod.fst ∘ fun p : Point =>
            (p.1 - foldMin p0.1 (p0.1 :: List.map Prod.fst rest) + SVG_MARGIN,
             p.2 - foldMin p0.2 (p0.2 :: List.map Prod.snd rest) + SVG_MARGIN)) rest) =
        foldMax p0.1 (p0.1 :: List.map Prod.fst rest) -
          foldMin p0.1 (p0.1 :: List.map Prod.fst rest) + SVG_MARGIN := by
      rw [hfst,
        show (p0.1 - foldMin p0.1 (p0.1 :: List.map Prod.fst rest) + SVG_MARGIN) ::
          List.map (fun x =>
            x - foldMin p0.1 (p0.1 :: List.map Prod.fst rest) + SVG_MARGIN)
            (List.map Prod.fst rest) =
          List.map (fun x =>
            x - foldMin p0.1 (p0.1 :: List.map Prod.fst rest) + SVG_MARGIN)
            (p0.1 :: List.map Prod.fst rest) from rfl,
        foldMax_map_shift]
    have hmaxy : foldMax
        (p0.2 - foldMin p0.2 (p0.2 :: List.map Prod.snd rest) + SVG_MARGIN)
        ((p0.2 - foldMin p0.2 (p0.2 :: List.map Prod.snd rest) + SVG_MARGIN) ::
          List.map (Prod.snd ∘ fun p : Point =>
            (p.1 - foldMin p0.1 (p0.1 :: List.map Prod.fst rest) + SVG_MARGIN,
             p.2 - foldMin p0.2 (p0.2 :: List.map Prod.snd rest) + SVG_MARGIN)) rest) =
        foldMax p0.2 (p0.2 :: List.map Prod.snd rest) -
          foldMin p0.2 (p0.2 :: List.map Prod.snd rest) + SVG_MARGIN := by
      rw [hsnd,
        show (p0.2 - foldMin p0.2 (p0.2 :: List.map Prod.snd rest) + SVG_MARGIN) ::
          List.map (fun x =>
            x - foldMin p0.2 (p0.2 :: List.map Prod.snd rest) + SVG_MARGIN)
            (List.map Prod.snd rest) =
          List.map (fun x =>
            x - foldMin p0.2 (p0.2 :: List.map Prod.snd rest) + SVG_MARGIN)
            (p0.2 :: List.map Prod.snd rest) from rfl,
        foldMax_map_shift]
    simp only [center_points, List.map_cons, List.map_map]
    rw [hminx, hminy, hmaxx, hmaxy]
    simp only [Prod.mk.injEq, List.cons.injEq]
    refine ⟨⟨⟨by ring, by ring⟩, ?_⟩, by ring, by ring⟩
    refine List.map_congr_left ?_
    intro a _
    simp only [Function.comp_apply, Prod.mk.injEq]
    constructor <;> ring

/-- Witness for C5 on the outline [(0, 0), (3, 4)]. -/
theorem center_points_idem_witness :
    ([((0 : ℚ), (0 : ℚ)), ((3 : ℚ), (4 : ℚ))] : List Point) ≠ [] ∧
    center_points
        ((center_points [((0 : ℚ), (0 : ℚ)), ((3 : ℚ), (4 : ℚ))]).1) =
      center_points [((0 : ℚ), (0 : ℚ)), ((3 : ℚ), (4 : ℚ))] :=
  ⟨List.cons_ne_nil _ _,
    center_points_idem [((0 : ℚ), (0 : ℚ)), ((3 : ℚ), (4 : ℚ))]
      (List.cons_ne_nil _ _)⟩

/-- Helper: int() raises ValueError on every string that is not a valid
integer literal after stripping. -/
theorem pyIntParse_error_of_not_wf (l : List Char)
    (h : pyIntWellFormedCore l = false) :
    pyIntParse l = Except.error PyError.valueError := by
  match l with
  | [] => rfl
  | c :: rest =>
    simp only [pyIntWellFormedCore] at h
    simp only [pyIntParse]
    by_cases h1 : c = '-'
    · rw [if_pos h1] at h
      rw [if_pos h1, if_neg (by simp [h])]
    · rw [if_neg h1] at h
      by_cases h2 : c = '+'
      · rw [if_pos h2] at h
        rw [if_neg h1, if_pos h2, if_neg (by simp [h])]
      · rw [if_neg h2] at h
        rw [if_neg h1, if_neg h2, if_neg (by simp [h])]

/-- Helper: the eager integer conversion of the four fragments raises as
soon as any fragment is not a well-formed integer literal. -/
theorem mapPyInt_error (l : List (List Char))
    (h : l.all (fun e => pyIntWellFormedCore (pyStripChars e)) = false) :
    ∃ er, mapPyInt l = Except.error er := by
  induction l with
  | nil => simp at h
  | cons e rest ih =>
    rw [List.all_cons] at h
    by_cases he : pyIntWellFormedCore (pyStripChars e) = false
    · refine ⟨PyError.valueError, ?_⟩
      simp only [mapPyInt, pyIntParse_error_of_not_wf _ he]
    · have he' : pyIntWellFormedCore (pyStripChars e) = true := by
        cases hb : pyIntWellFormedCore (pyStripChars e) <;> simp_all
      have hr : rest.all (fun e => pyIntWellFormedCore (pyStripChars e)) = false := by
        rw [he', Bool.true_and] at h
        exact h
      obtain ⟨er, her⟩ := ih hr
      cases hp : pyIntParse (pyStripChars e) with
      | error err => exact ⟨err, by simp only [mapPyInt, hp]⟩
      | ok z => exact ⟨er, by simp only [mapPyInt, hp, her]⟩

/-- C9: every command-line string for the suppressed_fingers option that is
not exactly four comma-separated integers makes
comma_separated_list_of_four_integers raise (AssertionError when the comma
split does not have four fragments, ValueError from int() when a fragment is
not an integer literal), so argument parsing fails before any geometry is
computed. -/
theorem malformed_suppressed_fingers_error (s : String)
    (h : four_comma_separated_integers s = false) :
    ∃ e, comma_separated_list_of_four_integers s = Except.error e := by
  unfold four_comma_separated_integers at h
  unfold comma_separated_list_of_four_integers
  by_cases hlen : (pySplit ',' s.toList).length = 4
  · rw [if_pos hlen]
    apply mapPyInt_error
    have hlen' : ((pySplit ',' s.toList).length == 4) = true := by
      simp only [beq_iff_eq]
      exact hlen
    rw [hlen', Bool.true_and] at h
    exact h
  · rw [if_neg hlen]
    exact ⟨PyError.assertionError, rfl⟩

/-- Witness for C9 on the malformed input 1,2,3, which has only three
comma-separated fragments and is rejected with an AssertionError before any
geometry is computed. -/
theorem malformed_suppressed_fingers_error_witness :
    four_comma_separated_integers "1,2,3" = false ∧
    ∃ e, comma_separated_list_of_four_integers "1,2,3" = Except.error e :=
  ⟨by decide, malformed_suppressed_fingers_error "1,2,3" (by decide)⟩

end FingerJoint
